import Mathlib

/-!
Verification of the Audio-Comparator repository.

The repository's core pipeline (audio_loader.py, feature_extractor.py,
similarity.py, the FastAPI result assembly) is described by the spec; the
frontend React components are in the repository. Core operations absent
from the source tree are modelled from the spec; frontend logic is embedded
directly from the JSX sources. Real-valued signal mathematics is modelled
over `ℝ`; the frontend chart construction over `ℚ`.
-/

namespace AudioComparator

/-! ## AudioLoader (spec-modelled) -/

/-- Errors AudioLoader can raise, from the spec's error taxonomy. -/
inductive LoadError where
  | emptySignal
  | silentSignal
  deriving DecidableEq

/-- Peak absolute sample value of a signal (0 for the empty signal). -/
noncomputable def peakAbs (xs : List ℝ) : ℝ :=
  xs.foldr (fun x m => max |x| m) 0

/-- Modelled from the spec: `audio_loader.py` is not in the source tree.
`load` receives the decoded sample list, fails with `EmptySignalError` on a
zero-length signal, with `SilentSignalError` when the peak absolute value is
zero, and otherwise normalizes amplitude by dividing every sample by the
peak absolute value. -/
noncomputable def load (xs : List ℝ) : Except LoadError (List ℝ) :=
  if xs = [] then .error .emptySignal
  else if peakAbs xs = 0 then .error .silentSignal
  else .ok (xs.map (fun x => x / peakAbs xs))

theorem peakAbs_nonneg (xs : List ℝ) : 0 ≤ peakAbs xs := by
  induction xs with
  | nil => simp [peakAbs]
  | cons x t ih =>
    simp only [peakAbs, List.foldr_cons] at *
    exact le_max_of_le_right ih

theorem peakAbs_map_div (xs : List ℝ) (p : ℝ) (hp : 0 < p) :
    peakAbs (xs.map (fun x => x / p)) = peakAbs xs / p := by
  induction xs with
  | nil => simp [peakAbs, hp.ne']
  | cons x t ih =>
    simp only [peakAbs, List.map_cons, List.foldr_cons] at *
    rw [ih, abs_div, abs_of_pos hp, max_div_div_right hp.le]

/-- C2: `AudioLoader.load` either returns a signal whose peak absolute sample
value is exactly 1, or fails: with `EmptySignalError` on a zero-length decoded
signal, with `SilentSignalError` when the peak absolute value is zero; the
three cases are exhaustive. -/
theorem load_peak_one_or_fails (xs : List ℝ) :
    (xs = [] → load xs = .error .emptySignal) ∧
    (xs ≠ [] → peakAbs xs = 0 → load xs = .error .silentSignal) ∧
    (peakAbs xs ≠ 0 →
      load xs = .ok (xs.map (fun x => x / peakAbs xs)) ∧
      peakAbs (xs.map (fun x => x / peakAbs xs)) = 1) := by
  refine ⟨fun he => by simp [load, he], fun hne hz => by simp [load, hne, hz], fun hnz => ?_⟩
  have hne : xs ≠ [] := by
    intro he
    exact hnz (by simp [he, peakAbs])
  have hp : 0 < peakAbs xs := lt_of_le_of_ne (peakAbs_nonneg xs) (Ne.symm hnz)
  refine ⟨by simp [load, hne, hnz], ?_⟩
  rw [peakAbs_map_div xs _ hp, div_self hnz]

/-- Witness for C2 at the concrete decoded signal `[1/2, -1/4]`. -/
theorem load_peak_one_or_fails_witness :
    peakAbs [(1:ℝ)/2, -(1/4)] ≠ 0 ∧
      load [(1:ℝ)/2, -(1/4)] =
        .ok ([(1:ℝ)/2, -(1/4)].map (fun x => x / peakAbs [(1:ℝ)/2, -(1/4)])) ∧
      peakAbs ([(1:ℝ)/2, -(1/4)].map (fun x => x / peakAbs [(1:ℝ)/2, -(1/4)])) = 1 := by
  have hpos : 0 < peakAbs [(1:ℝ)/2, -(1/4)] := by
    simp only [peakAbs, List.foldr_cons, List.foldr_nil]
    positivity
  have hnz : peakAbs [(1:ℝ)/2, -(1/4)] ≠ 0 := hpos.ne'
  exact ⟨hnz, (load_peak_one_or_fails [(1:ℝ)/2, -(1/4)]).2.2 hnz⟩

/-! ## Vector primitives shared by FeatureExtractor and SimilarityEngine -/

/-- Dot product of two sample lists (truncating to the shorter length). -/
def dotl (a b : List ℝ) : ℝ := (List.zipWith (· * ·) a b).sum

/-- Modelled from the spec: cosine similarity between two vectors, the
metric `similarity.py` (absent from the source tree) applies to spectral
centroid sequences and PSD vectors. -/
noncomputable def cosineSim (a b : List ℝ) : ℝ :=
  dotl a b / (Real.sqrt (dotl a a) * Real.sqrt (dotl b b))

/-- Modelled from the spec: map a cosine value in [-1, 1] to a percentage
in [0, 100] via `(cos + 1) / 2 * 100`. -/
noncomputable def cosineToPercent (c : ℝ) : ℝ := (c + 1) / 2 * 100

/-- Euclidean distance between two coefficient vectors. -/
noncomputable def euclid (a b : List ℝ) : ℝ :=
  Real.sqrt (List.zipWith (fun x y => (x - y) ^ 2) a b).sum

/-- Modelled from the spec: the standard DTW cumulative-cost recurrence
`cost(i,j) = d(i,j) + min(cost(i-1,j), cost(i,j-1), cost(i-1,j-1))` with
boundary `cost(0,0) = d(0,0)` and edge rows/columns accumulating along the
only legal direction. -/
noncomputable def dtwCost (d : ℕ → ℕ → ℝ) : ℕ → ℕ → ℝ
  | 0, 0 => d 0 0
  | 0, j + 1 => dtwCost d 0 j + d 0 (j + 1)
  | i + 1, 0 => dtwCost d i 0 + d (i + 1) 0
  | i + 1, j + 1 =>
      d (i + 1) (j + 1) +
        min (dtwCost d i (j + 1)) (min (dtwCost d (i + 1) j) (dtwCost d i j))
  termination_by i j => (i, j)

/-- Modelled from the spec: total DTW path cost normalized by the combined
sequence length, yielding an average per-step distance; 0 when either
sequence is empty. -/
noncomputable def dtwDist (d : ℕ → ℕ → ℝ) (n m : ℕ) : ℝ :=
  if n = 0 ∨ m = 0 then 0 else dtwCost d (n - 1) (m - 1) / (n + m)

/-- Modelled from the spec: monotonically decreasing distance-to-percentage
mapping `100 * exp(-distance / scale)`: distance 0 ↦ 100, distance → ∞ ↦ 0. -/
noncomputable def distToPercent (scale dist : ℝ) : ℝ :=
  100 * Real.exp (-(dist / scale))

/-! ## FeatureSet and SimilarityEngine (spec-modelled) -/

/-- Modelled from the spec: the extracted representation of one signal, with
explicit shape metadata (`nCoeffs`) checked at comparison time. `mfcc` and
`melSpectrogram` are stored frame-major: one coefficient/band vector per
frame. -/
structure FeatureSet where
  nCoeffs : ℕ
  mfcc : List (List ℝ)
  spectralCentroid : List ℝ
  psd : List ℝ
  freqs : List ℝ
  melSpectrogram : List (List ℝ)

/-- Errors SimilarityEngine can raise. -/
inductive CompareError where
  | dimensionMismatch
  deriving DecidableEq

/-- Per-dimension similarity percentages. -/
structure SimilarityBreakdown where
  mfcc_similarity : ℝ
  spectral_similarity : ℝ
  frequency_distribution_similarity : ℝ
  temporal_pattern_similarity : ℝ

/-- Tunable scale of the MFCC distance-to-percentage mapping. -/
noncomputable def mfccScale : ℝ := 50

/-- Tunable scale of the temporal distance-to-percentage mapping. -/
noncomputable def temporalScale : ℝ := 10

/-- Fixed common length to which spectral-centroid sequences are resampled. -/
def resampleLen : ℕ := 4

/-- Modelled from the spec: resample a sequence to a fixed length `N` by
linear interpolation, so duration differences do not block comparison. -/
noncomputable def linResample (N : ℕ) (v : List ℝ) : List ℝ :=
  (List.range N).map (fun k =>
    if v.length ≤ 1 ∨ N ≤ 1 then v.getD 0 0
    else
      let pos : ℚ := (k * (v.length - 1) : ℚ) / (N - 1)
      let i0 : ℕ := ⌊pos⌋.toNat
      let t : ℚ := pos - i0
      (1 - (t : ℝ)) * v.getD i0 0 + (t : ℝ) * v.getD (i0 + 1) 0)

/-- Modelled from the spec: MFCC similarity — DTW over the two frame
sequences with Euclidean local cost, normalized and mapped to a
percentage. -/
noncomputable def mfccSimilarity (A B : FeatureSet) : ℝ :=
  distToPercent mfccScale
    (dtwDist (fun i j => euclid (A.mfcc.getD i []) (B.mfcc.getD j []))
      A.mfcc.length B.mfcc.length)

/-- Modelled from the spec: spectral similarity — cosine similarity of the
two centroid sequences after resampling both to a common fixed length. -/
noncomputable def spectralSimilarity (A B : FeatureSet) : ℝ :=
  cosineToPercent
    (cosineSim (linResample resampleLen A.spectralCentroid)
      (linResample resampleLen B.spectralCentroid))

/-- Modelled from the spec: frequency-distribution similarity — cosine
similarity between the two PSD vectors. -/
noncomputable def psdSimilarity (p q : List ℝ) : ℝ :=
  cosineToPercent (cosineSim p q)

/-- Frame-wise energy sequence: sum of mel-band powers per frame. -/
def frameEnergy (fs : FeatureSet) : List ℝ := fs.melSpectrogram.map List.sum

/-- Modelled from the spec: temporal-pattern similarity — DTW over the two
frame-wise energy sequences with absolute difference as local cost, mapped
to a percentage. -/
noncomputable def temporalSimilarity (A B : FeatureSet) : ℝ :=
  distToPercent temporalScale
    (dtwDist (fun i j => |(frameEnergy A).getD i 0 - (frameEnergy B).getD j 0|)
      (frameEnergy A).length (frameEnergy B).length)

/-- Modelled from the spec: `SimilarityEngine.compare` — checks configuration
compatibility (MFCC coefficient count, PSD bin count) before computing any
metric, then produces the four per-dimension percentages. -/
noncomputable def compare (A B : FeatureSet) : Except CompareError SimilarityBreakdown :=
  if A.nCoeffs ≠ B.nCoeffs ∨ A.psd.length ≠ B.psd.length then
    .error .dimensionMismatch
  else
    .ok
      { mfcc_similarity := mfccSimilarity A B
        spectral_similarity := spectralSimilarity A B
        frequency_distribution_similarity := psdSimilarity A.psd B.psd
        temporal_pattern_similarity := temporalSimilarity A B }

/-- Fixed aggregation weight of the MFCC dimension (highest: timbre). -/
noncomputable def wMfcc : ℝ := 2 / 5

/-- Fixed aggregation weight of the spectral dimension. -/
noncomputable def wSpectral : ℝ := 1 / 4

/-- Fixed aggregation weight of the frequency-distribution dimension. -/
noncomputable def wFreq : ℝ := 1 / 4

/-- Fixed aggregation weight of the temporal dimension (lowest). -/
noncomputable def wTemporal : ℝ := 1 / 10

/-- Modelled from the spec: the aggregate similarity score — weighted average
of the four breakdown percentages with fixed weights summing to 1. -/
noncomputable def aggregateScore (b : SimilarityBreakdown) : ℝ :=
  wMfcc * b.mfcc_similarity + wSpectral * b.spectral_similarity +
    wFreq * b.frequency_distribution_similarity +
    wTemporal * b.temporal_pattern_similarity

/-! ## DTW lemmas -/

theorem dtwCost_nonneg (d : ℕ → ℕ → ℝ) (hd : ∀ i j, 0 ≤ d i j) (i j : ℕ) :
    0 ≤ dtwCost d i j := by
  have H : ∀ n i j, i + j ≤ n → 0 ≤ dtwCost d i j := by
    intro n
    induction n with
    | zero =>
      intro i j h
      obtain ⟨rfl, rfl⟩ : i = 0 ∧ j = 0 := by omega
      simpa [dtwCost] using hd 0 0
    | succ n ih =>
      intro i j h
      match i, j with
      | 0, 0 => simpa [dtwCost] using hd 0 0
      | 0, j + 1 =>
        simp only [dtwCost]
        exact add_nonneg (ih 0 j (by omega)) (hd 0 (j + 1))
      | i + 1, 0 =>
        simp only [dtwCost]
        exact add_nonneg (ih i 0 (by omega)) (hd (i + 1) 0)
      | i + 1, j + 1 =>
        simp only [dtwCost]
        refine add_nonneg (hd _ _) (le_min (ih i (j + 1) (by omega)) ?_)
        exact le_min (ih (i + 1) j (by omega)) (ih i j (by omega))
  exact H (i + j) i j le_rfl

theorem dtwCost_diag_zero (d : ℕ → ℕ → ℝ) (hd : ∀ i j, 0 ≤ d i j)
    (hd0 : ∀ i, d i i = 0) (n : ℕ) : dtwCost d n n = 0 := by
  induction n with
  | zero => simpa [dtwCost] using hd0 0
  | succ n ih =>
    simp only [dtwCost, hd0 (n + 1), zero_add]
    rw [ih, min_eq_right (dtwCost_nonneg d hd (n + 1) n),
      min_eq_right (dtwCost_nonneg d hd n (n + 1))]

theorem dtwCost_swap (d : ℕ → ℕ → ℝ) (i j : ℕ) :
    dtwCost (fun a b => d b a) j i = dtwCost d i j := by
  have H : ∀ n i j, i + j ≤ n → dtwCost (fun a b => d b a) j i = dtwCost d i j := by
    intro n
    induction n with
    | zero =>
      intro i j h
      obtain ⟨rfl, rfl⟩ : i = 0 ∧ j = 0 := by omega
      simp [dtwCost]
    | succ n ih =>
      intro i j h
      match i, j with
      | 0, 0 => simp [dtwCost]
      | 0, j + 1 =>
        simp only [dtwCost]
        rw [ih 0 j (by omega)]
      | i + 1, 0 =>
        simp only [dtwCost]
        rw [ih i 0 (by omega)]
      | i + 1, j + 1 =>
        simp only [dtwCost]
        rw [ih i (j + 1) (by omega), ih (i + 1) j (by omega), ih i j (by omega),
          min_left_comm]
  exact H (i + j) i j le_rfl

theorem dtwDist_nonneg (d : ℕ → ℕ → ℝ) (hd : ∀ i j, 0 ≤ d i j) (n m : ℕ) :
    0 ≤ dtwDist d n m := by
  unfold dtwDist
  split
  · exact le_rfl
  · exact div_nonneg (dtwCost_nonneg d hd _ _) (by positivity)

theorem dtwDist_self_zero (d : ℕ → ℕ → ℝ) (hd : ∀ i j, 0 ≤ d i j)
    (hd0 : ∀ i, d i i = 0) (n : ℕ) : dtwDist d n n = 0 := by
  unfold dtwDist
  split
  · rfl
  · rw [dtwCost_diag_zero d hd hd0, zero_div]

theorem dtwDist_swap (d : ℕ → ℕ → ℝ) (n m : ℕ) :
    dtwDist (fun a b => d b a) m n = dtwDist d n m := by
  unfold dtwDist
  by_cases h : m = 0 ∨ n = 0
  · rw [if_pos h, if_pos h.symm]
  · rw [if_neg h, if_neg (fun hc => h hc.symm), dtwCost_swap, add_comm (m : ℝ) n]

theorem distToPercent_bounds (scale dist : ℝ) (hs : 0 < scale) (hd : 0 ≤ dist) :
    0 ≤ distToPercent scale dist ∧ distToPercent scale dist ≤ 100 := by
  unfold distToPercent
  constructor
  · positivity
  · have : Real.exp (-(dist / scale)) ≤ 1 := by
      rw [Real.exp_le_one_iff]
      have : 0 ≤ dist / scale := div_nonneg hd hs.le
      linarith
    linarith

theorem distToPercent_zero (scale : ℝ) : distToPercent scale 0 = 100 := by
  simp [distToPercent]

/-! ## Dot-product and cosine lemmas -/

theorem dotl_self_nonneg (a : List ℝ) : 0 ≤ dotl a a := by
  induction a with
  | nil => simp [dotl]
  | cons x t ih =>
    simp only [dotl, List.zipWith_cons_cons, List.sum_cons] at *
    nlinarith [sq_nonneg x]

theorem dotl_sq_le (a b : List ℝ) : (dotl a b) ^ 2 ≤ dotl a a * dotl b b := by
  induction a generalizing b with
  | nil => simp [dotl]
  | cons x t ih =>
    cases b with
    | nil => simp [dotl]
    | cons y s =>
      have hA := dotl_self_nonneg t
      have hB := dotl_self_nonneg s
      have hD := ih s
      simp only [dotl, List.zipWith_cons_cons, List.sum_cons] at *
      set D := (List.zipWith (· * ·) t s).sum with hDdef
      set A := (List.zipWith (· * ·) t t).sum with hAdef
      set B := (List.zipWith (· * ·) s s).sum with hBdef
      rcases eq_or_lt_of_le hB with hB0 | hBpos
      · have hD0 : D = 0 := by nlinarith [sq_nonneg D]
        rw [← hB0, hD0]
        nlinarith [mul_nonneg hA (sq_nonneg y)]
      · nlinarith [sq_nonneg (x * B - y * D),
          mul_nonneg (by positivity : (0:ℝ) ≤ y ^ 2 + B)
            (by nlinarith : (0:ℝ) ≤ A * B - D ^ 2), hBpos]

theorem cosineSim_self (v : List ℝ) (h : dotl v v ≠ 0) : cosineSim v v = 1 := by
  unfold cosineSim
  rw [Real.mul_self_sqrt (dotl_self_nonneg v), div_self h]

theorem abs_cosineSim_le_one (a b : List ℝ) : |cosineSim a b| ≤ 1 := by
  unfold cosineSim
  rcases eq_or_lt_of_le
      (mul_nonneg (Real.sqrt_nonneg (dotl a a)) (Real.sqrt_nonneg (dotl b b))) with
    hden | hden
  · rw [← hden, div_zero, abs_zero]
    norm_num
  · rw [abs_div, abs_of_pos hden, div_le_one hden]
    calc |dotl a b| = Real.sqrt ((dotl a b) ^ 2) := (Real.sqrt_sq_eq_abs _).symm
      _ ≤ Real.sqrt (dotl a a * dotl b b) := Real.sqrt_le_sqrt (dotl_sq_le a b)
      _ = Real.sqrt (dotl a a) * Real.sqrt (dotl b b) :=
          Real.sqrt_mul (dotl_self_nonneg a) _

theorem cosineToPercent_bounds (c : ℝ) (h : |c| ≤ 1) :
    0 ≤ cosineToPercent c ∧ cosineToPercent c ≤ 100 := by
  rw [abs_le] at h
  unfold cosineToPercent
  constructor <;> linarith [h.1, h.2]

theorem cosineToPercent_one : cosineToPercent 1 = 100 := by
  norm_num [cosineToPercent]

theorem dotl_map_mul_left (c : ℝ) (a b : List ℝ) :
    dotl (a.map (fun x => c * x)) b = c * dotl a b := by
  induction a generalizing b with
  | nil => simp [dotl]
  | cons x t ih =>
    cases b with
    | nil => simp [dotl]
    | cons y s =>
      simp only [dotl, List.map_cons, List.zipWith_cons_cons, List.sum_cons] at *
      rw [ih s]
      ring

theorem dotl_map_mul_right (c : ℝ) (a b : List ℝ) :
    dotl a (b.map (fun x => c * x)) = c * dotl a b := by
  induction a generalizing b with
  | nil => simp [dotl]
  | cons x t ih =>
    cases b with
    | nil => simp [dotl]
    | cons y s =>
      simp only [dotl, List.map_cons, List.zipWith_cons_cons, List.sum_cons] at *
      rw [ih s]
      ring

theorem cosineSim_smul_left (c : ℝ) (hc : 0 < c) (a b : List ℝ) :
    cosineSim (a.map (fun x => c * x)) b = cosineSim a b := by
  unfold cosineSim
  rw [dotl_map_mul_left, dotl_map_mul_left, dotl_map_mul_right, ← mul_assoc,
    show c * c = c ^ 2 by ring, Real.sqrt_mul (sq_nonneg c), Real.sqrt_sq hc.le,
    mul_assoc, mul_div_mul_left _ _ hc.ne']

theorem cosineSim_smul_right (c : ℝ) (hc : 0 < c) (a b : List ℝ) :
    cosineSim a (b.map (fun x => c * x)) = cosineSim a b := by
  unfold cosineSim
  rw [dotl_map_mul_right, dotl_map_mul_left, dotl_map_mul_right, ← mul_assoc,
    show c * c = c ^ 2 by ring, Real.sqrt_mul (sq_nonneg c), Real.sqrt_sq hc.le,
    mul_comm (Real.sqrt (dotl a a)) (c * Real.sqrt (dotl b b)), mul_assoc,
    mul_div_mul_left _ _ hc.ne', mul_comm (Real.sqrt (dotl b b)) _]

/-! ## Claim theorems: symmetry, dimension mismatch, scale invariance -/

theorem euclid_comm (x y : List ℝ) : euclid x y = euclid y x := by
  unfold euclid
  rw [List.zipWith_comm_of_comm _ (fun u v => by ring : ∀ u v : ℝ, (u - v) ^ 2 = (v - u) ^ 2)]

theorem euclid_self (x : List ℝ) : euclid x x = 0 := by
  unfold euclid
  have h : (List.zipWith (fun a b => (a - b) ^ 2) x x).sum = 0 := by
    induction x with
    | nil => simp
    | cons a t ih => simp [ih]
  rw [h, Real.sqrt_zero]

theorem euclid_nonneg (x y : List ℝ) : 0 ≤ euclid x y := Real.sqrt_nonneg _

theorem mfccSimilarity_comm (A B : FeatureSet) :
    mfccSimilarity B A = mfccSimilarity A B := by
  unfold mfccSimilarity
  congr 1
  have h : (fun i j => euclid (B.mfcc.getD i []) (A.mfcc.getD j [])) =
      (fun i j =>
        (fun p q => euclid (A.mfcc.getD p []) (B.mfcc.getD q [])) j i) := by
    funext i j
    exact euclid_comm _ _
  rw [h, dtwDist_swap]

/-- C3: MFCC similarity is symmetric through `compare`: swapping the two
feature sets leaves the `mfcc_similarity` component of the result (and the
error outcome) unchanged. -/
theorem compare_mfcc_symmetric (A B : FeatureSet) :
    (compare A B).map SimilarityBreakdown.mfcc_similarity =
      (compare B A).map SimilarityBreakdown.mfcc_similarity := by
  unfold compare
  by_cases h : A.nCoeffs ≠ B.nCoeffs ∨ A.psd.length ≠ B.psd.length
  · rw [if_pos h, if_pos (h.imp Ne.symm Ne.symm)]
  · have h' : ¬(B.nCoeffs ≠ A.nCoeffs ∨ B.psd.length ≠ A.psd.length) := by
      push_neg at h ⊢
      exact ⟨h.1.symm, h.2.symm⟩
    rw [if_neg h, if_neg h']
    simp only [Except.map]
    exact congrArg Except.ok (mfccSimilarity_comm A B).symm

/-- C4: when the two feature sets were extracted with incompatible
configurations (different MFCC coefficient counts or PSD bin counts),
`compare` fails with `DimensionMismatchError` and produces no metric. -/
theorem compare_dimension_mismatch (A B : FeatureSet)
    (h : A.nCoeffs ≠ B.nCoeffs ∨ A.psd.length ≠ B.psd.length) :
    compare A B = .error .dimensionMismatch := by
  unfold compare
  rw [if_pos h]

/-- A feature set with a given MFCC coefficient count and no frames. -/
def emptyFeatureSet (n : ℕ) : FeatureSet :=
  { nCoeffs := n, mfcc := [], spectralCentroid := [], psd := [], freqs := [],
    melSpectrogram := [] }

/-- Witness for C4: a 13-coefficient feature set against a 20-coefficient
one. -/
theorem compare_dimension_mismatch_witness :
    ((emptyFeatureSet 13).nCoeffs ≠ (emptyFeatureSet 20).nCoeffs ∨
      (emptyFeatureSet 13).psd.length ≠ (emptyFeatureSet 20).psd.length) ∧
      compare (emptyFeatureSet 13) (emptyFeatureSet 20) = .error .dimensionMismatch := by
  have h : (emptyFeatureSet 13).nCoeffs ≠ (emptyFeatureSet 20).nCoeffs ∨
      (emptyFeatureSet 13).psd.length ≠ (emptyFeatureSet 20).psd.length :=
    Or.inl (by decide)
  exact ⟨h, compare_dimension_mismatch _ _ h⟩

/-- C6: the cosine-based frequency-distribution similarity is invariant under
multiplication of either PSD vector by a positive scalar. -/
theorem psdSimilarity_scale_invariant (p q : List ℝ) (c : ℝ) (hc : 0 < c) :
    psdSimilarity (p.map (fun x => c * x)) q = psdSimilarity p q ∧
      psdSimilarity p (q.map (fun x => c * x)) = psdSimilarity p q := by
  unfold psdSimilarity
  exact ⟨by rw [cosineSim_smul_left c hc], by rw [cosineSim_smul_right c hc]⟩

/-- Witness for C6 at PSD vectors `[1]`, `[1]` and scalar `c = 2`. -/
theorem psdSimilarity_scale_invariant_witness :
    (0 : ℝ) < 2 ∧
      (psdSimilarity ([(1:ℝ)].map (fun x => 2 * x)) [1] = psdSimilarity [1] [1] ∧
        psdSimilarity [(1:ℝ)] ([(1:ℝ)].map (fun x => 2 * x)) = psdSimilarity [1] [1]) :=
  ⟨by norm_num, psdSimilarity_scale_invariant [1] [1] 2 (by norm_num)⟩

/-! ## Component bounds and self-comparison lemmas -/

theorem mfccSimilarity_bounds (A B : FeatureSet) :
    0 ≤ mfccSimilarity A B ∧ mfccSimilarity A B ≤ 100 :=
  distToPercent_bounds _ _ (by norm_num [mfccScale])
    (dtwDist_nonneg _ (fun i j => euclid_nonneg _ _) _ _)

theorem temporalSimilarity_bounds (A B : FeatureSet) :
    0 ≤ temporalSimilarity A B ∧ temporalSimilarity A B ≤ 100 :=
  distToPercent_bounds _ _ (by norm_num [temporalScale])
    (dtwDist_nonneg _ (fun i j => abs_nonneg _) _ _)

theorem spectralSimilarity_bounds (A B : FeatureSet) :
    0 ≤ spectralSimilarity A B ∧ spectralSimilarity A B ≤ 100 :=
  cosineToPercent_bounds _ (abs_cosineSim_le_one _ _)

theorem psdSimilarity_bounds (p q : List ℝ) :
    0 ≤ psdSimilarity p q ∧ psdSimilarity p q ≤ 100 :=
  cosineToPercent_bounds _ (abs_cosineSim_le_one _ _)

theorem mfccSimilarity_self (fs : FeatureSet) : mfccSimilarity fs fs = 100 := by
  unfold mfccSimilarity
  rw [dtwDist_self_zero (fun i j => euclid (fs.mfcc.getD i []) (fs.mfcc.getD j []))
      (fun i j => euclid_nonneg _ _) (fun i => euclid_self _) fs.mfcc.length,
    distToPercent_zero]

theorem temporalSimilarity_self (fs : FeatureSet) : temporalSimilarity fs fs = 100 := by
  unfold temporalSimilarity
  rw [dtwDist_self_zero
      (fun i j => |(frameEnergy fs).getD i 0 - (frameEnergy fs).getD j 0|)
      (fun i j => abs_nonneg _) (fun i => by simp)
      (frameEnergy fs).length,
    distToPercent_zero]

theorem spectralSimilarity_self (fs : FeatureSet)
    (hc : dotl (linResample resampleLen fs.spectralCentroid)
        (linResample resampleLen fs.spectralCentroid) ≠ 0) :
    spectralSimilarity fs fs = 100 := by
  unfold spectralSimilarity
  rw [cosineSim_self _ hc, cosineToPercent_one]

theorem psdSimilarity_self (p : List ℝ) (hp : dotl p p ≠ 0) :
    psdSimilarity p p = 100 := by
  unfold psdSimilarity
  rw [cosineSim_self _ hp, cosineToPercent_one]

theorem compare_self_ok (fs : FeatureSet)
    (hc : dotl (linResample resampleLen fs.spectralCentroid)
        (linResample resampleLen fs.spectralCentroid) ≠ 0)
    (hp : dotl fs.psd fs.psd ≠ 0) :
    compare fs fs = .ok ⟨100, 100, 100, 100⟩ := by
  unfold compare
  rw [if_neg (by simp)]
  rw [mfccSimilarity_self fs, spectralSimilarity_self fs hc,
    psdSimilarity_self fs.psd hp, temporalSimilarity_self fs]

/-- C1: comparing a feature set against itself yields 100.0 on all four
breakdown dimensions, and the aggregate similarity score is also 100.0.
The hypotheses state that the resampled centroid sequence and the PSD vector
are not identically zero — guaranteed for pipeline inputs, since AudioLoader
rejects silent signals. -/
theorem compare_self_perfect (fs : FeatureSet)
    (hc : dotl (linResample resampleLen fs.spectralCentroid)
        (linResample resampleLen fs.spectralCentroid) ≠ 0)
    (hp : dotl fs.psd fs.psd ≠ 0) :
    compare fs fs = .ok ⟨100, 100, 100, 100⟩ ∧
      aggregateScore ⟨100, 100, 100, 100⟩ = 100 :=
  ⟨compare_self_ok fs hc hp,
    by norm_num [aggregateScore, wMfcc, wSpectral, wFreq, wTemporal]⟩

/-- A one-frame feature set extracted from a unit input. -/
def unitFeatureSet : FeatureSet :=
  { nCoeffs := 1, mfcc := [[1]], spectralCentroid := [1], psd := [1],
    freqs := [0], melSpectrogram := [[1]] }

theorem linResample_singleton (x : ℝ) :
    linResample resampleLen [x] = [x, x, x, x] := by
  unfold linResample resampleLen
  rw [show List.range 4 = [0, 1, 2, 3] from rfl]
  simp

theorem unit_centroid_dot_ne :
    dotl (linResample resampleLen unitFeatureSet.spectralCentroid)
        (linResample resampleLen unitFeatureSet.spectralCentroid) ≠ 0 := by
  rw [show unitFeatureSet.spectralCentroid = [(1:ℝ)] from rfl, linResample_singleton]
  norm_num [dotl]

theorem unit_psd_dot_ne : dotl unitFeatureSet.psd unitFeatureSet.psd ≠ 0 := by
  rw [show unitFeatureSet.psd = [(1:ℝ)] from rfl]
  norm_num [dotl]

/-- Witness for C1 at the concrete one-frame feature set. -/
theorem compare_self_perfect_witness :
    compare unitFeatureSet unitFeatureSet = .ok ⟨100, 100, 100, 100⟩ ∧
      aggregateScore ⟨100, 100, 100, 100⟩ = 100 :=
  compare_self_perfect unitFeatureSet unit_centroid_dot_ne unit_psd_dot_ne

/-- C5: every value produced by `compare` is bounded in [0, 100] on each of
the four breakdown dimensions, and the aggregate score is the weighted
average of the four percentages with fixed non-negative weights summing to
1, hence itself lies in [0, 100]. -/
theorem compare_breakdown_bounded (A B : FeatureSet) (r : SimilarityBreakdown)
    (h : compare A B = .ok r) :
    (0 ≤ r.mfcc_similarity ∧ r.mfcc_similarity ≤ 100) ∧
      (0 ≤ r.spectral_similarity ∧ r.spectral_similarity ≤ 100) ∧
      (0 ≤ r.frequency_distribution_similarity ∧
        r.frequency_distribution_similarity ≤ 100) ∧
      (0 ≤ r.temporal_pattern_similarity ∧ r.temporal_pattern_similarity ≤ 100) ∧
      aggregateScore r =
        wMfcc * r.mfcc_similarity + wSpectral * r.spectral_similarity +
          wFreq * r.frequency_distribution_similarity +
          wTemporal * r.temporal_pattern_similarity ∧
      wMfcc + wSpectral + wFreq + wTemporal = 1 ∧
      (0 ≤ wMfcc ∧ 0 ≤ wSpectral ∧ 0 ≤ wFreq ∧ 0 ≤ wTemporal) ∧
      0 ≤ aggregateScore r ∧ aggregateScore r ≤ 100 := by
  unfold compare at h
  by_cases hd : A.nCoeffs ≠ B.nCoeffs ∨ A.psd.length ≠ B.psd.length
  · rw [if_pos hd] at h
    exact absurd h (by simp)
  · rw [if_neg hd] at h
    injection h with h
    subst h
    have h1 := mfccSimilarity_bounds A B
    have h2 := spectralSimilarity_bounds A B
    have h3 := psdSimilarity_bounds A.psd B.psd
    have h4 := temporalSimilarity_bounds A B
    refine ⟨h1, h2, h3, h4, rfl,
      by norm_num [wMfcc, wSpectral, wFreq, wTemporal],
      by norm_num [wMfcc, wSpectral, wFreq, wTemporal], ?_, ?_⟩ <;>
    · unfold aggregateScore wMfcc wSpectral wFreq wTemporal
      dsimp only
      linarith [h1.1, h1.2, h2.1, h2.2, h3.1, h3.2, h4.1, h4.2]

/-- Witness for C5 at the concrete one-frame feature set. -/
theorem compare_breakdown_bounded_witness :
    (0 ≤ (⟨100, 100, 100, 100⟩ : SimilarityBreakdown).mfcc_similarity ∧
        (⟨100, 100, 100, 100⟩ : SimilarityBreakdown).mfcc_similarity ≤ 100) ∧
      (0 ≤ (⟨100, 100, 100, 100⟩ : SimilarityBreakdown).spectral_similarity ∧
        (⟨100, 100, 100, 100⟩ : SimilarityBreakdown).spectral_similarity ≤ 100) ∧
      (0 ≤ (⟨100, 100, 100, 100⟩ : SimilarityBreakdown).frequency_distribution_similarity ∧
        (⟨100, 100, 100, 100⟩ : SimilarityBreakdown).frequency_distribution_similarity ≤ 100) ∧
      (0 ≤ (⟨100, 100, 100, 100⟩ : SimilarityBreakdown).temporal_pattern_similarity ∧
        (⟨100, 100, 100, 100⟩ : SimilarityBreakdown).temporal_pattern_similarity ≤ 100) ∧
      aggregateScore ⟨100, 100, 100, 100⟩ =
        wMfcc * (⟨100, 100, 100, 100⟩ : SimilarityBreakdown).mfcc_similarity +
          wSpectral * (⟨100, 100, 100, 100⟩ : SimilarityBreakdown).spectral_similarity +
          wFreq * (⟨100, 100, 100, 100⟩ : SimilarityBreakdown).frequency_distribution_similarity +
          wTemporal * (⟨100, 100, 100, 100⟩ : SimilarityBreakdown).temporal_pattern_similarity ∧
      wMfcc + wSpectral + wFreq + wTemporal = 1 ∧
      (0 ≤ wMfcc ∧ 0 ≤ wSpectral ∧ 0 ≤ wFreq ∧ 0 ≤ wTemporal) ∧
      0 ≤ aggregateScore ⟨100, 100, 100, 100⟩ ∧
      aggregateScore ⟨100, 100, 100, 100⟩ ≤ 100 :=
  compare_breakdown_bounded unitFeatureSet unitFeatureSet ⟨100, 100, 100, 100⟩
    (compare_self_ok unitFeatureSet unit_centroid_dot_ne unit_psd_dot_ne)

/-! ## FeatureExtractor: spectral centroid (spec-modelled) -/

/-- Modelled from the spec: `feature_extractor.py` is not in the source tree.
Per-frame spectral centroid: the power-weighted mean frequency
`sum(freq_i * magnitude_i) / sum(magnitude_i)`, defined as 0 for a frame
whose total magnitude is 0. -/
noncomputable def centroidFrame (freqs mags : List ℝ) : ℝ :=
  if mags.sum = 0 then 0 else dotl freqs mags / mags.sum

/-- Spectral-centroid sequence over the frames of a magnitude spectrogram. -/
noncomputable def spectralCentroidSeq (freqs : List ℝ) (frames : List (List ℝ)) :
    List ℝ :=
  frames.map (centroidFrame freqs)

/-- C7: for every analysis frame of a spectrogram, the spectral centroid is 0
on a silent frame (total magnitude 0), and otherwise equals the
power-weighted mean frequency — equivalently it satisfies
`centroid * sum(magnitude) = sum(freq * magnitude)`, so the defining division
never runs with a zero divisor. -/
theorem spectralCentroid_no_div_zero (freqs : List ℝ) (frames : List (List ℝ)) :
    ∀ m ∈ frames,
      (m.sum = 0 → centroidFrame freqs m = 0) ∧
      (m.sum ≠ 0 →
        centroidFrame freqs m = dotl freqs m / m.sum ∧
        centroidFrame freqs m * m.sum = dotl freqs m) := by
  intro m _
  refine ⟨fun h => by simp [centroidFrame, h], fun h => ?_⟩
  have he : centroidFrame freqs m = dotl freqs m / m.sum := by
    simp [centroidFrame, h]
  exact ⟨he, by rw [he, div_mul_cancel₀ _ h]⟩

/-- Witness for C7: a silent frame and a non-silent frame of a concrete
two-bin spectrogram. -/
theorem spectralCentroid_no_div_zero_witness :
    centroidFrame [100, 200] [0, 0] = 0 ∧
      centroidFrame [100, 200] [1, 1] = dotl [100, 200] [1, 1] / ([(1:ℝ), 1]).sum ∧
      centroidFrame [100, 200] [1, 1] * ([(1:ℝ), 1]).sum = dotl [100, 200] [1, 1] :=
  ⟨(spectralCentroid_no_div_zero [100, 200] [[0, 0], [1, 1]] [0, 0]
      (by simp)).1 (by norm_num),
    (spectralCentroid_no_div_zero [100, 200] [[0, 0], [1, 1]] [1, 1]
      (by simp)).2 (by norm_num)⟩

/-! ## ResultAssembler (spec-modelled) -/

/-- Modelled from the spec: the interpretation string is derived from the
aggregate score via fixed thresholds. -/
noncomputable def interpretation (s : ℝ) : String :=
  if 90 ≤ s then "Excellent match"
  else if 70 ≤ s then "Good match"
  else if 50 ≤ s then "Moderate match"
  else "Low similarity"

/-- The four interpretation bands. -/
inductive Band where
  | low
  | moderate
  | good
  | excellent
  deriving DecidableEq

/-- The score interval covered by each interpretation band. -/
def scoreBand : Band → Set ℝ
  | .low => {s | 0 ≤ s ∧ s < 50}
  | .moderate => {s | 50 ≤ s ∧ s < 70}
  | .good => {s | 70 ≤ s ∧ s < 90}
  | .excellent => {s | 90 ≤ s ∧ s ≤ 100}

/-- The label attached to each interpretation band. -/
def bandLabel : Band → String
  | .low => "Low similarity"
  | .moderate => "Moderate match"
  | .good => "Good match"
  | .excellent => "Excellent match"

/-- C8: the threshold bands are total and non-overlapping over [0, 100]:
every aggregate score lies in exactly one band, and `interpretation` returns
that band's label. -/
theorem interpretation_partition (s : ℝ) (h0 : 0 ≤ s) (h1 : s ≤ 100) :
    ∃! b : Band, s ∈ scoreBand b ∧ interpretation s = bandLabel b := by
  by_cases h90 : 90 ≤ s
  · refine ⟨.excellent, ⟨⟨h90, h1⟩, by simp [interpretation, bandLabel, h90]⟩,
      fun j hj => ?_⟩
    have hm := hj.1
    cases j <;> first
      | rfl
      | (exfalso
         simp only [scoreBand, Set.mem_setOf_eq] at hm
         linarith)
  · by_cases h70 : 70 ≤ s
    · refine ⟨.good, ⟨⟨h70, not_le.mp h90⟩,
        by simp [interpretation, bandLabel, h90, h70]⟩, fun j hj => ?_⟩
      have hm := hj.1
      cases j <;> first
        | rfl
        | (exfalso
           simp only [scoreBand, Set.mem_setOf_eq] at hm
           linarith)
    · by_cases h50 : 50 ≤ s
      · refine ⟨.moderate, ⟨⟨h50, not_le.mp h70⟩,
          by simp [interpretation, bandLabel, h90, h70, h50]⟩, fun j hj => ?_⟩
        have hm := hj.1
        cases j <;> first
          | rfl
          | (exfalso
             simp only [scoreBand, Set.mem_setOf_eq] at hm
             linarith)
      · refine ⟨.low, ⟨⟨h0, not_le.mp h50⟩,
          by simp [interpretation, bandLabel, h90, h70, h50]⟩, fun j hj => ?_⟩
        have hm := hj.1
        cases j <;> first
          | rfl
          | (exfalso
             simp only [scoreBand, Set.mem_setOf_eq] at hm
             linarith)

/-- Witness for C8 at the concrete score 75. -/
theorem interpretation_partition_witness :
    ∃! b : Band, (75 : ℝ) ∈ scoreBand b ∧ interpretation 75 = bandLabel b :=
  interpretation_partition 75 (by norm_num) (by norm_num)

/-! ## Frontend: FrequencyGraph.jsx chart-data construction -/

/-- JavaScript `Math.round`: round half toward positive infinity. -/
def jsRound (x : ℚ) : ℤ := ⌊x + 1 / 2⌋

/-- One entry of `processedData` in `FrequencyGraph.jsx`: the rounded
frequency and the two PSD series values keyed by the audio labels. -/
structure ChartPoint where
  freq : ℤ
  psd1 : ℚ
  psd2 : ℚ
  deriving DecidableEq

/-- The `for` loop of `FrequencyGraph.jsx` (lines 16–24): starting at index
`i` and advancing by `stride = 2`, it breaks at the first visited bin whose
frequency exceeds `MAX_FREQ = 8000` and otherwise pushes
`{freq: Math.round(freqs[i]), [label1]: psd1[i], [label2]: psd2[i]}`. -/
def chartLoop (freqs psd1 psd2 : List ℚ) (i : ℕ) : List ChartPoint :=
  if i < freqs.length then
    if 8000 < freqs.getD i 0 then []
    else
      { freq := jsRound (freqs.getD i 0), psd1 := psd1.getD i 0,
        psd2 := psd2.getD i 0 } :: chartLoop freqs psd1 psd2 (i + 2)
  else []
  termination_by freqs.length - i
  decreasing_by omega

/-- `processedData` of `FrequencyGraph.jsx`: the loop run from index 0. -/
def processedData (freqs psd1 psd2 : List ℚ) : List ChartPoint :=
  chartLoop freqs psd1 psd2 0

/-- The indices visited by the loop: `i, i+2, i+4, …` below `n`. -/
def strideIdx (n i : ℕ) : List ℕ :=
  if i < n then i :: strideIdx n (i + 2) else []
  termination_by n - i
  decreasing_by omega

theorem chartLoop_eq_takeWhile (freqs psd1 psd2 : List ℚ) (i : ℕ) :
    chartLoop freqs psd1 psd2 i =
      ((strideIdx freqs.length i).takeWhile
          (fun j => decide (freqs.getD j 0 ≤ 8000))).map
        (fun j =>
          { freq := jsRound (freqs.getD j 0), psd1 := psd1.getD j 0,
            psd2 := psd2.getD j 0 }) := by
  have H : ∀ k i, freqs.length - i ≤ k →
      chartLoop freqs psd1 psd2 i =
        ((strideIdx freqs.length i).takeWhile
            (fun j => decide (freqs.getD j 0 ≤ 8000))).map
          (fun j =>
            { freq := jsRound (freqs.getD j 0), psd1 := psd1.getD j 0,
              psd2 := psd2.getD j 0 }) := by
    intro k
    induction k with
    | zero =>
      intro i h
      have hi : ¬i < freqs.length := by omega
      rw [chartLoop, if_neg hi, strideIdx, if_neg hi]
      rfl
    | succ k ih =>
      intro i h
      by_cases hi : i < freqs.length
      · rw [chartLoop, if_pos hi, strideIdx, if_pos hi]
        by_cases hf : 8000 < freqs.getD i 0
        · rw [@List.takeWhile_cons_of_neg ℕ (fun j => decide (freqs.getD j 0 ≤ 8000))
            i (strideIdx freqs.length (i + 2))
            (fun hc => absurd (of_decide_eq_true hc) (not_le.mpr hf)),
            if_pos hf]
          rfl
        · rw [@List.takeWhile_cons_of_pos ℕ (fun j => decide (freqs.getD j 0 ≤ 8000))
            i (strideIdx freqs.length (i + 2)) (decide_eq_true (not_lt.mp hf)),
            if_neg hf]
          simp only [List.map_cons]
          rw [ih (i + 2) (by omega)]
      · rw [chartLoop, if_neg hi, strideIdx, if_neg hi]
        rfl
  exact H (freqs.length - i) i le_rfl

theorem strideIdx_eq_range' (n : ℕ) (i : ℕ) :
    strideIdx n i = List.range' i ((n - i + 1) / 2) 2 := by
  have H : ∀ k i, n - i ≤ k → strideIdx n i = List.range' i ((n - i + 1) / 2) 2 := by
    intro k
    induction k with
    | zero =>
      intro i h
      have hi : ¬i < n := by omega
      have h2 : (n - i + 1) / 2 = 0 := by omega
      rw [strideIdx, if_neg hi, h2]
      rfl
    | succ k ih =>
      intro i h
      by_cases hi : i < n
      · have h2 : (n - i + 1) / 2 = (n - (i + 2) + 1) / 2 + 1 := by omega
        rw [strideIdx, if_pos hi, h2, List.range'_succ, ih (i + 2) (by omega)]
      · have h2 : (n - i + 1) / 2 = 0 := by omega
        rw [strideIdx, if_neg hi, h2]
        rfl
  exact H (n - i) i le_rfl

theorem range'_stride_eq_filter (n : ℕ) :
    List.range' 0 ((n + 1) / 2) 2 = (List.range n).filter (fun i => i % 2 == 0) := by
  induction n with
  | zero => rfl
  | succ n ih =>
    rw [List.range_succ, List.filter_append]
    by_cases hpar : n % 2 = 0
    · have h2 : (n + 1 + 1) / 2 = (n + 1) / 2 + 1 := by omega
      rw [h2, List.range'_concat, ih]
      have hn : 0 + 2 * ((n + 1) / 2) = n := by omega
      rw [hn]
      simp [hpar]
    · have h2 : (n + 1 + 1) / 2 = (n + 1) / 2 := by omega
      rw [h2, ih]
      have : (List.filter (fun i => i % 2 == 0) [n]) = [] := by
        simp [hpar]
      rw [this, List.append_nil]

/-- C9: the chart data built by `FrequencyGraph.jsx` consists of exactly the
bins at even indices of `audio1.freqs` (stride 2), in increasing index
order, truncated at the first such bin whose frequency exceeds 8000 Hz;
each surviving point carries the rounded frequency and reads both PSD
series at that same even index, so odd-indexed bins and bins past the 8 kHz
cut are absent and `audio2`'s series is indexed by `audio1`'s frequency
axis. -/
theorem processedData_even_bins_below_8k (freqs psd1 psd2 : List ℚ) :
    processedData freqs psd1 psd2 =
      ((((List.range freqs.length).filter (fun i => i % 2 == 0)).takeWhile
          (fun j => decide (freqs.getD j 0 ≤ 8000))).map
        (fun j =>
          { freq := jsRound (freqs.getD j 0), psd1 := psd1.getD j 0,
            psd2 := psd2.getD j 0 })) := by
  rw [processedData, chartLoop_eq_takeWhile, strideIdx_eq_range']
  have h2 : (freqs.length - 0 + 1) / 2 = (freqs.length + 1) / 2 := by omega
  rw [h2, range'_stride_eq_filter]

/-! ## Frontend: Home page analyze guard (Results.jsx source file) -/

/-- The component state of `Home`: the two selected files and the
`loading`/`error` state hooks. -/
structure HomeState where
  file1 : Option String
  file2 : Option String
  loading : Bool
  error : Option String
  deriving DecidableEq

/-- The synchronous prefix of `handleAnalyze`: `if (!file1 || !file2)
return;` — otherwise it sets `loading = true`, clears `error`, and issues
the `POST /analyze` request carrying both files (returned as the second
component). -/
def handleAnalyzeStart (s : HomeState) : HomeState × Option (String × String) :=
  match s.file1, s.file2 with
  | some f1, some f2 => ({ s with loading := true, error := none }, some (f1, f2))
  | _, _ => (s, none)

/-- C10: when `file1` or `file2` is null, `handleAnalyze` returns at once:
no request is issued and the state (including `loading` and `error`) is
unchanged; conversely a request is only issued when both files are
present. -/
theorem handleAnalyze_requires_both_files (s : HomeState) :
    (s.file1 = none ∨ s.file2 = none → handleAnalyzeStart s = (s, none)) ∧
      (∀ r, (handleAnalyzeStart s).2 = some r →
        s.file1 = some r.1 ∧ s.file2 = some r.2) := by
  obtain ⟨f1, f2, l, e⟩ := s
  cases f1 <;> cases f2 <;> simp [handleAnalyzeStart]

/-- Witness for C10: with the first file missing, the handler is a no-op. -/
theorem handleAnalyze_requires_both_files_witness :
    handleAnalyzeStart ⟨none, some "b.wav", false, none⟩ =
      (⟨none, some "b.wav", false, none⟩, none) :=
  (handleAnalyze_requires_both_files ⟨none, some "b.wav", false, none⟩).1
    (Or.inl rfl)

end AudioComparator
